import Mathlib

/-!
Verification of the pyspread chart dialog and config module
(`src/pyspread/src/gui/_chart_dialog.py`, `src/_pyspread/config.py`).

Strings are modelled as `List Char`.  The generator `parse_dict_strings`
is modelled as a function returning `Option (List (List Char))`: `none`
models the `NameError` raised on empty input (the final `yield` reads the
loop variable of a `for` loop whose body never ran).
-/

set_option autoImplicit false

namespace Pyspread

/-- Scanner state of `parse_dict_strings`: the bracket nesting counter
`level` and the currently open quote character `curr_paren`. -/
structure ScanState where
  level : Int
  currParen : Option Char
deriving DecidableEq

/-- Opening brackets recognised at line 364 of `_chart_dialog.py`. -/
def openBrackets : List Char := ['(', '[', '{']

/-- Closing brackets recognised at line 366 of `_chart_dialog.py`. -/
def closeBrackets : List Char := [')', ']', '}']

/-- Quote characters recognised at line 368 of `_chart_dialog.py`. -/
def quoteChars : List Char := ['"', '\'']

/-- One iteration of the state update in the `for` loop of
`parse_dict_strings` (lines 364-372): brackets count only outside quotes,
a quote closes itself and opens when no quote is pending. -/
def scanStep (s : ScanState) (c : Char) : ScanState :=
  if c ∈ openBrackets ∧ s.currParen = none then
    { s with level := s.level + 1 }
  else if c ∈ closeBrackets ∧ s.currParen = none then
    { s with level := s.level - 1 }
  else if c ∈ quoteChars then
    if s.currParen = some c then { s with currParen := none }
    else if s.currParen = none then { s with currParen := some c }
    else s
  else s

/-- The split condition of line 373: `level == 0 and char in [':', ','] and
curr_paren is None`, evaluated on the state after the update of the same
iteration. -/
def splitHere (s : ScanState) (c : Char) : Bool :=
  s.level == 0 && (c == ':' || c == ',') && s.currParen == none

/-- Strip all characters satisfying `p` from both ends of a list, the
semantics of Python `str.strip(chars)` for a one-character `chars`. -/
def stripChars (p : Char → Bool) (l : List Char) : List Char :=
  ((l.dropWhile p).reverse.dropWhile p).reverse

/-- Python `str.strip()` with no argument: surrounding whitespace removed. -/
def pyStrip (l : List Char) : List Char :=
  stripChars (fun c => c.isWhitespace) l

/-- The chunk transformation of line 374:
`.strip().strip("(").strip(")")`. -/
def stripParens (l : List Char) : List Char :=
  stripChars (fun c => c == ')') (stripChars (fun c => c == '(') (pyStrip l))

/-- The loop of `parse_dict_strings` with the pending chunk accumulated in
reverse in `cur`; at each split position the pending chunk is yielded
through `stripParens`, and the trailing chunk (line 376) through `pyStrip`
only. -/
def pdsGo (s : ScanState) (cur : List Char) : List Char → List (List Char)
  | [] => [pyStrip cur.reverse]
  | c :: rest =>
    let s1 := scanStep s c
    if splitHere s1 c then
      stripParens cur.reverse :: pdsGo s1 [] rest
    else
      pdsGo s1 (c :: cur) rest

/-- Initial scanner state: `level = 0`, `curr_paren = None`. -/
def initState : ScanState := ⟨0, none⟩

/-- `parse_dict_strings` (lines 359-376).  On the empty string the
function raises `NameError` because the final `yield` references the loop
variable `i` of a loop that never ran; this is modelled by `none`. -/
def parse_dict_strings (code : List Char) : Option (List (List Char)) :=
  match code with
  | [] => none
  | _ :: _ => some (pdsGo initState [] code)

/-- The raw spans of `parse_dict_strings`, before any stripping: the same
segmentation as `pdsGo` but yielding `code[chunk_start:i]` verbatim. -/
def pdsChunksRaw (s : ScanState) (cur : List Char) : List Char → List (List Char)
  | [] => [cur.reverse]
  | c :: rest =>
    let s1 := scanStep s c
    if splitHere s1 c then
      cur.reverse :: pdsChunksRaw s1 [] rest
    else
      pdsChunksRaw s1 (c :: cur) rest

/-- Number of split positions the scanner meets in `l` starting from
state `s`. -/
def splitCount (s : ScanState) : List Char → Nat
  | [] => 0
  | c :: rest =>
    let s1 := scanStep s c
    (if splitHere s1 c then 1 else 0) + splitCount s1 rest

/-- The scanner state after consuming all of `l` from state `s`. -/
def scanList (s : ScanState) (l : List Char) : ScanState :=
  l.foldl scanStep s

/-- An atom: a candidate key or value of a flat dict string.  Scanning it
from the initial state meets no split position and returns to the initial
state, i.e. its brackets and quotes are balanced and every `:` or `,`
inside it is nested or quoted. -/
def isAtom (l : List Char) : Prop :=
  scanList initState l = initState ∧ splitCount initState l = 0

instance (l : List Char) : Decidable (isAtom l) := by
  unfold isAtom; infer_instance

/-- `key:value` rendering of one pair. -/
def kvString (p : List Char × List Char) : List Char :=
  p.1 ++ ':' :: p.2

/-- A well-formed flat `key:value,`-separated string built from a list of
pairs: pairs joined with `,`, key and value joined with `:`. -/
def joinPairs : List (List Char × List Char) → List Char
  | [] => []
  | [p] => kvString p
  | p :: q :: ps => kvString p ++ ',' :: joinPairs (q :: ps)

/-- The scanner state before the character at position `i` of `code`. -/
def stateAt (code : List Char) (i : Nat) : ScanState :=
  scanList initState (code.take i)

/-- Whether `parse_dict_strings` uses position `i` of `code` as a chunk
boundary: the split condition of line 373, evaluated at the state of that
iteration. -/
def isSplitPos (code : List Char) (i : Nat) (h : i < code.length) : Bool :=
  splitHere (scanStep (stateAt code i) (code.get ⟨i, h⟩)) (code.get ⟨i, h⟩)

/-- Apply `f` to every element except the last and `g` to the last
element: the relation between raw spans and yielded chunks. -/
def mapInitLast (f g : List Char → List Char) :
    List (List Char) → List (List Char)
  | [] => []
  | [a] => [g a]
  | a :: b :: rest => f a :: mapInitLast f g (b :: rest)

/-! ### Error model for the dialog callbacks -/

/-- The Python exception classes relevant to the dialog's handlers. -/
inductive PyExc where
  | typeError
  | valueError
  | otherError
deriving DecidableEq

/-- `ChartDialog.get_series_tuple` (lines 479-491): evaluate the cell
code and coerce the result to a tuple, catching `TypeError` and
`ValueError` and returning the empty tuple instead.  The external cell
evaluator and the numpy tuple coercion are parameters. -/
def get_series_tuple {α β : Type} (evalCell : List Char → Except PyExc α)
    (toSeriesTuple : α → Except PyExc (List β)) (code : List Char) :
    Except PyExc (List β) :=
  match (do
      let result ← evalCell code
      toSeriesTuple result : Except PyExc (List β)) with
  | Except.ok t => Except.ok t
  | Except.error e =>
    if e = PyExc.typeError ∨ e = PyExc.valueError then Except.ok []
    else Except.error e

/-- `ChartDialog.OnDrawChart` (lines 571-581): store the evaluated chart
data on the figure, call `draw_chart`, return early on `ValueError`, and
otherwise redraw the canvas.  The `Bool` of the result records whether
`figure_canvas.draw()` was invoked. -/
def OnDrawChart {χ : Type} (drawChart : χ → Except PyExc Unit)
    (chart_data : χ) : Except PyExc (χ × Bool) :=
  match drawChart chart_data with
  | Except.ok _ => Except.ok (chart_data, true)
  | Except.error PyExc.valueError => Except.ok (chart_data, false)
  | Except.error e => Except.error e

/-! ### Python dict operations on insertion-ordered association lists -/

/-- Python dict lookup `d[k]`, `none` when the key is absent. -/
def dictGet {β : Type} : List (List Char × β) → List Char → Option β
  | [], _ => none
  | kv :: rest, k => if kv.1 = k then some kv.2 else dictGet rest k

/-- Python dict assignment `d[k] = v`: overwrite in place when the key
exists, append otherwise. -/
def dictSet {β : Type} :
    List (List Char × β) → List Char → β → List (List Char × β)
  | [], k, v => [(k, v)]
  | kv :: rest, k, v =>
    if kv.1 = k then (k, v) :: rest else kv :: dictSet rest k v

/-! ### The generated figure expression (claim C6) -/

/-- A series panel as `get_figure_code` sees it: the `series_data` dict
and the panel's `series_keys` list (line 330). -/
structure SeriesPanel where
  series_data : List (List Char × List Char)
  series_keys : List (List Char)
deriving DecidableEq

/-- The value adjustment of lines 533-536: values of series keys that are
empty or not already parenthesised are wrapped in parentheses. -/
def seriesValueCode (series_keys : List (List Char))
    (key value_str : List Char) : List Char :=
  if key ∈ series_keys ∧
      (value_str = [] ∨
        (value_str.head? ≠ some '(' ∨ value_str.getLast? ≠ some ')')) then
    '(' :: value_str ++ [')']
  else value_str

/-- The inner loop of `get_figure_code` (lines 528-538): render the
series dict entries as `'key': value, ` in insertion order. -/
def seriesDataCode (panel : SeriesPanel) : List Char :=
  panel.series_data.foldl
    (fun acc kv =>
      acc ++ '\'' :: kv.1 ++ '\'' :: ':' :: ' ' ::
        seriesValueCode panel.series_keys kv.1 kv.2 ++ [',', ' '])
    []

/-- The `charts.` module qualifier of line 546. -/
def chartsQualifier : List Char := ['c', 'h', 'a', 'r', 't', 's', '.']

/-- `charts.ChartFigure.__name__` (line 545). -/
def chartFigureName : List Char :=
  ['C', 'h', 'a', 'r', 't', 'F', 'i', 'g', 'u', 'r', 'e']

/-- `ChartDialog.get_figure_code` (lines 517-546): accumulate
`, {series_dict}` per panel, cut the leading `, `, and wrap the result in
`charts.ChartFigure(...)`. -/
def get_figure_code (panels : List SeriesPanel) : List Char :=
  let chart_data_code :=
    panels.foldl
      (fun acc panel =>
        acc ++ ',' :: ' ' :: '{' :: seriesDataCode panel ++ ['}'])
      []
  chartsQualifier ++ chartFigureName ++ '(' :: chart_data_code.drop 2 ++ [')']

/-- Join a list of strings with a separator. -/
def joinSep (sep : List Char) : List (List Char) → List Char
  | [] => []
  | [x] => x
  | x :: y :: xs => x ++ sep ++ joinSep sep (y :: xs)

/-- The form the spec claims for the generated expression: the qualifier
`charts.ChartFigure(`, one brace-enclosed series dict per panel separated
by `, `, and a closing parenthesis. -/
def chartFigureCodeSpec (panels : List SeriesPanel) : List Char :=
  chartsQualifier ++ chartFigureName ++ '(' ::
    joinSep [',', ' ']
      (panels.map (fun panel => '{' :: seriesDataCode panel ++ ['}'])) ++ [')']

/-! ### The widget event handlers (claim C7) -/

/-- The per-series dict shared by the data, line and marker panels. -/
abbrev SeriesData := List (List Char × List Char)

/-- Model of Python `repr` for a plain string without quotes or escape
characters, the only strings the style combo boxes produce. -/
def pyReprStr (s : List Char) : List Char := '\'' :: s ++ ['\'']

/-- Model of Python `repr` for an integer. -/
def pyReprInt (n : Int) : List Char := (toString n).toList

/-- `ChartAxisDataPanel.OnXText` (lines 145-150): store the text control
content under `xdata`. -/
def OnXText (series_data : SeriesData) (eventString : List Char) :
    SeriesData :=
  dictSet series_data "xdata".toList eventString

/-- `ChartAxisDataPanel.OnYText` (lines 152-157): store the text control
content under `ydata`. -/
def OnYText (series_data : SeriesData) (eventString : List Char) :
    SeriesData :=
  dictSet series_data "ydata".toList eventString

/-- `ChartAxisLinePanel.OnStyle` (lines 200-205): store the repr of the
selected line style code under `linestyle`. -/
def lineOnStyle (series_data : SeriesData) (line_style_code : List Char) :
    SeriesData :=
  dictSet series_data "linestyle".toList (pyReprStr line_style_code)

/-- `ChartAxisLinePanel.OnWidth` (lines 207-211): store the repr of the
selected width under `linewidth`. -/
def OnWidth (series_data : SeriesData) (selection : Int) : SeriesData :=
  dictSet series_data "linewidth".toList (pyReprInt selection)

/-- `ChartAxisLinePanel.OnColor` (lines 213-218): store the rendered
colour tuple under `color`; the repr of the floating-point tuple is
abstracted as the already-rendered `colorRepr` string. -/
def OnColor (series_data : SeriesData) (colorRepr : List Char) :
    SeriesData :=
  dictSet series_data "color".toList colorRepr

/-- `ChartAxisMarkerPanel.OnStyle` (lines 274-279): store the repr of the
selected marker style code under `marker`. -/
def markerOnStyle (series_data : SeriesData) (marker_style_code : List Char) :
    SeriesData :=
  dictSet series_data "marker".toList (pyReprStr marker_style_code)

/-- `ChartAxisMarkerPanel.OnSize` (lines 281-285): store the repr of the
integer control value under `markersize`. -/
def OnSize (series_data : SeriesData) (value : Int) : SeriesData :=
  dictSet series_data "markersize".toList (pyReprInt value)

/-- `ChartAxisMarkerPanel.OnEdgeColor` (lines 287-292): store the
rendered colour tuple under `markeredgecolor`. -/
def OnEdgeColor (series_data : SeriesData) (colorRepr : List Char) :
    SeriesData :=
  dictSet series_data "markeredgecolor".toList colorRepr

/-- `ChartAxisMarkerPanel.OnFaceColor` (lines 294-299): store the
rendered colour tuple under `markerfacecolor`. -/
def OnFaceColor (series_data : SeriesData) (colorRepr : List Char) :
    SeriesData :=
  dictSet series_data "markerfacecolor".toList colorRepr

/-! ### Heap model for `eval_chart_data` (claim C9) -/

/-- Values a series dict holds during `eval_chart_data`: plain strings,
and the symbolic results of the external tuple and float coercions. -/
inductive ChartVal where
  | vStr (s : List Char)
  | vTup (source : List Char)
  | vFloat (source : List Char)
deriving DecidableEq

/-- Python `s[1:-1]` (line 508) on a string value; other values are
returned unchanged (the stored linestyle and marker values are always
strings). -/
def sliceFirstLast : ChartVal → ChartVal
  | ChartVal.vStr s => ChartVal.vStr ((s.drop 1).dropLast)
  | v => v

/-- A dict object on the heap. -/
abbrev SDict := List (List Char × ChartVal)

/-- A heap of Python dict objects; references are list indices and
allocation appends. -/
abbrev Heap := List SDict

/-- Dereference a dict object. -/
def heapGet (h : Heap) (r : Nat) : SDict := h.getD r []

/-- Overwrite a dict object in place. -/
def heapSet (h : Heap) (r : Nat) (d : SDict) : Heap := h.set r d

/-- Allocate a fresh dict object, as `copy(...)` does (line 502). -/
def heapAlloc (h : Heap) (d : SDict) : Heap × Nat := (h ++ [d], h.length)

/-- A plot panel as `eval_chart_data` sees it: a reference to its
`series_data` dict and the three key lists of `PlotPanel`
(lines 330-333). -/
structure PanelRef where
  series_data_ref : Nat
  series_keys : List (List Char)
  string_keys : List (List Char)
  float_keys : List (List Char)
deriving DecidableEq

/-- One per-key coercion loop of `eval_chart_data` (lines 504-511):
`series_data[key] = f(series_data[key])`, assigning through the heap
reference `r`; a missing key raises `KeyError`, modelled by `none`. -/
def coerceKeys (f : ChartVal → ChartVal) :
    List (List Char) → Heap → Nat → Option Heap
  | [], h, _ => some h
  | k :: ks, h, r =>
    match dictGet (heapGet h r) k with
    | none => none
    | some v => coerceKeys f ks (heapSet h r (dictSet (heapGet h r) k (f v))) r

/-- One iteration of the panel loop of `eval_chart_data` (lines 499-513):
copy the panel's series dict into a fresh object, coerce the series,
string and float keys on the copy, and collect the copy's final value. -/
def evalSeriesPanel (tupleCoerce floatCoerce : ChartVal → ChartVal)
    (h : Heap) (p : PanelRef) : Option (SDict × Heap) :=
  let ar := heapAlloc h (heapGet h p.series_data_ref)
  match coerceKeys tupleCoerce p.series_keys ar.1 ar.2 with
  | none => none
  | some h1 =>
    match coerceKeys sliceFirstLast p.string_keys h1 ar.2 with
    | none => none
    | some h2 =>
      match coerceKeys floatCoerce p.float_keys h2 ar.2 with
      | none => none
      | some h3 => some (heapGet h3 ar.2, h3)

/-- `ChartDialog.eval_chart_data` (lines 493-515) over the list of series
panels, parameterised over the external `get_series_tuple` and `float`
coercions. -/
def eval_chart_data (tupleCoerce floatCoerce : ChartVal → ChartVal) :
    Heap → List PanelRef → Option (List SDict × Heap)
  | h, [] => some ([], h)
  | h, p :: ps =>
    match evalSeriesPanel tupleCoerce floatCoerce h p with
    | none => none
    | some (d, h1) =>
      match eval_chart_data tupleCoerce floatCoerce h1 ps with
      | none => none
      | some (ds, h2) => some (d :: ds, h2)

/-! ### The `brush_styles` table of `config.py` (claim C10) -/

/-- The wx brush style constants named in `config.py` lines 451-461,
modelled as opaque distinct constants. -/
inductive WxBrushStyle where
  | transparentStyle
  | solidStyle
  | stippleStyle
  | bdiagonalHatch
  | crossdiagHatch
  | fdiagonalHatch
  | crossHatch
  | horizontalHatch
  | verticalHatch
deriving DecidableEq

/-- A Python dict literal: entries inserted left to right, a duplicate
key overwriting the earlier entry in place. -/
def pyDictLiteral {β : Type} (entries : List (List Char × β)) :
    List (List Char × β) :=
  entries.foldl (fun d kv => dictSet d kv.1 kv.2) []

/-- `brush_styles` (`config.py` lines 451-461): nine literal entries
whose keys are all the empty string. -/
def brush_styles : List (List Char × WxBrushStyle) :=
  pyDictLiteral
    [([], WxBrushStyle.transparentStyle), ([], WxBrushStyle.solidStyle),
     ([], WxBrushStyle.stippleStyle), ([], WxBrushStyle.bdiagonalHatch),
     ([], WxBrushStyle.crossdiagHatch), ([], WxBrushStyle.fdiagonalHatch),
     ([], WxBrushStyle.crossHatch), ([], WxBrushStyle.horizontalHatch),
     ([], WxBrushStyle.verticalHatch)]

/-! ### Lemmas about the scanner -/

/-- A separator character leaves the scanner state unchanged: it is
neither a bracket nor a quote. -/
theorem scanStep_sep (s : ScanState) (c : Char) (hc : c = ':' ∨ c = ',') :
    scanStep s c = s := by
  rcases hc with rfl | rfl <;>
    simp [scanStep, openBrackets, closeBrackets, quoteChars]

/-- At the initial state a separator character satisfies the split
condition. -/
theorem splitHere_initState (c : Char) (hc : c = ':' ∨ c = ',') :
    splitHere initState c = true := by
  rcases hc with rfl | rfl <;> decide

/-- The number of chunks produced by the loop is the number of split
positions plus one. -/
theorem pdsGo_length (l : List Char) :
    ∀ s cur, (pdsGo s cur l).length = splitCount s l + 1 := by
  induction l with
  | nil => intro s cur; simp [pdsGo, splitCount]
  | cons c rest ih =>
    intro s cur
    by_cases h : splitHere (scanStep s c) c = true <;>
      simp [pdsGo, splitCount, h, ih, Nat.add_comm]

/-- Split counting distributes over append. -/
theorem splitCount_append (l₁ l₂ : List Char) :
    ∀ s, splitCount s (l₁ ++ l₂) =
      splitCount s l₁ + splitCount (scanList s l₁) l₂ := by
  induction l₁ with
  | nil => intro s; simp [splitCount, scanList]
  | cons c rest ih =>
    intro s
    simp [splitCount, scanList, ih, List.foldl_cons, Nat.add_assoc]

/-- Scanning distributes over append. -/
theorem scanList_append (s : ScanState) (l₁ l₂ : List Char) :
    scanList s (l₁ ++ l₂) = scanList (scanList s l₁) l₂ := by
  simp [scanList, List.foldl_append]

/-- A `key:value` pair built from two atoms contains exactly one split
position (the colon) and scans back to the initial state. -/
theorem kvString_spec (p : List Char × List Char)
    (h1 : isAtom p.1) (h2 : isAtom p.2) :
    splitCount initState (kvString p) = 1 ∧
      scanList initState (kvString p) = initState := by
  obtain ⟨hs1, hc1⟩ := h1
  obtain ⟨hs2, hc2⟩ := h2
  unfold kvString
  rw [splitCount_append, scanList_append, hs1, hc1]
  have hstep : scanStep initState ':' = initState :=
    scanStep_sep _ _ (Or.inl rfl)
  constructor
  · show 0 + splitCount initState (':' :: p.2) = 1
    simp [splitCount, hstep, hc2, splitHere_initState ':' (Or.inl rfl)]
  · show scanList initState (':' :: p.2) = initState
    simp [scanList, List.foldl_cons, hstep]
    exact hs2

/-- A `key:value` string is never empty. -/
theorem kvString_ne_nil (p : List Char × List Char) : kvString p ≠ [] := by
  unfold kvString
  cases h : p.1 <;> simp

/-- A join of a nonempty list of pairs is never empty. -/
theorem joinPairs_ne_nil (pairs : List (List Char × List Char))
    (h : pairs ≠ []) : joinPairs pairs ≠ [] := by
  match pairs with
  | [p] => exact kvString_ne_nil p
  | p :: q :: ps =>
    show kvString p ++ ',' :: joinPairs (q :: ps) ≠ []
    cases hk : kvString p with
    | nil => exact absurd hk (kvString_ne_nil p)
    | cons a l => simp

/-- A well-formed join of `n` pairs of atoms has `2n - 1` split positions
and scans back to the initial state. -/
theorem joinPairs_spec (pairs : List (List Char × List Char))
    (hne : pairs ≠ []) (hat : ∀ p ∈ pairs, isAtom p.1 ∧ isAtom p.2) :
    splitCount initState (joinPairs pairs) + 1 = 2 * pairs.length ∧
      scanList initState (joinPairs pairs) = initState := by
  induction pairs with
  | nil => exact absurd rfl hne
  | cons p ps ih =>
    have hp := hat p (List.mem_cons_self p ps)
    have hkv := kvString_spec p hp.1 hp.2
    cases ps with
    | nil =>
      constructor
      · show splitCount initState (kvString p) + 1 = 2 * 1
        rw [hkv.1]
      · exact hkv.2
    | cons q ps' =>
      have hat' : ∀ r ∈ q :: ps', isAtom r.1 ∧ isAtom r.2 := by
        intro r hr
        exact hat r (List.mem_cons_of_mem p hr)
      obtain ⟨ih1, ih2⟩ := ih (by simp) hat'
      have hstep : scanStep initState ',' = initState :=
        scanStep_sep _ _ (Or.inr rfl)
      have hjoin : joinPairs (p :: q :: ps') =
          kvString p ++ ',' :: joinPairs (q :: ps') := rfl
      rw [hjoin, splitCount_append, scanList_append, hkv.1, hkv.2]
      constructor
      · have hcomma : splitCount initState (',' :: joinPairs (q :: ps')) =
            1 + splitCount initState (joinPairs (q :: ps')) := by
          simp [splitCount, hstep, splitHere_initState ',' (Or.inr rfl)]
        rw [hcomma]
        simp only [List.length_cons] at ih1 ⊢
        omega
      · show scanList initState (',' :: joinPairs (q :: ps')) = initState
        simp only [scanList, List.foldl_cons, hstep]
        exact ih2

/-- Nonempty input reaches the loop, so the generator yields its chunks. -/
theorem parse_dict_strings_of_ne_nil (code : List Char) (h : code ≠ []) :
    parse_dict_strings code = some (pdsGo initState [] code) := by
  cases code with
  | nil => exact absurd rfl h
  | cons c rest => rfl

/-- Claim C1: for every well-formed flat `key:value,`-separated string
with balanced brackets and quotes containing `n` keys (here: a join of
`n` pairs of atoms), `parse_dict_strings` yields exactly `2n` chunks,
the number of keys plus the number of values. -/
theorem C1_parse_dict_strings_chunk_count
    (pairs : List (List Char × List Char)) (hne : pairs ≠ [])
    (hat : ∀ p ∈ pairs, isAtom p.1 ∧ isAtom p.2) :
    ∃ chunks, parse_dict_strings (joinPairs pairs) = some chunks ∧
      chunks.length = 2 * pairs.length := by
  refine ⟨pdsGo initState [] (joinPairs pairs),
    parse_dict_strings_of_ne_nil _ (joinPairs_ne_nil pairs hne), ?_⟩
  rw [pdsGo_length]
  exact (joinPairs_spec pairs hne hat).1

/-- Witness for claim C1 at the concrete two-pair input `a:b,c:(1)`. -/
theorem C1_witness :
    ([(['a'], ['b']), (['c'], ['(', '1', ')'])] ≠
        ([] : List (List Char × List Char))) ∧
      ∃ chunks,
        parse_dict_strings
            (joinPairs [(['a'], ['b']), (['c'], ['(', '1', ')'])]) =
          some chunks ∧
        chunks.length = 2 * [(['a'], ['b']), (['c'], ['(', '1', ')'])].length :=
  ⟨by decide,
    C1_parse_dict_strings_chunk_count _ (by decide) (by decide)⟩

/-! ### Membership of non-boundary characters in yielded chunks -/

/-- Every character of the pending chunk ends up in some raw span. -/
theorem mem_pdsChunksRaw_of_mem_cur (l : List Char) :
    ∀ s cur x, x ∈ cur → ∃ ch ∈ pdsChunksRaw s cur l, x ∈ ch := by
  induction l with
  | nil =>
    intro s cur x hx
    exact ⟨cur.reverse, by simp [pdsChunksRaw], by simpa using hx⟩
  | cons c rest ih =>
    intro s cur x hx
    by_cases h : splitHere (scanStep s c) c = true
    · refine ⟨cur.reverse, ?_, by simpa using hx⟩
      simp [pdsChunksRaw, h]
    · have := ih (scanStep s c) (c :: cur) x (List.mem_cons_of_mem c hx)
      simpa [pdsChunksRaw, h] using this


/-- A character at a non-boundary position ends up in some raw span. -/
theorem mem_pdsChunksRaw_of_not_split (l : List Char) :
    ∀ s cur i (h : i < l.length),
      splitHere (scanStep (scanList s (l.take i)) (l.get ⟨i, h⟩))
          (l.get ⟨i, h⟩) = false →
      ∃ ch ∈ pdsChunksRaw s cur l, l.get ⟨i, h⟩ ∈ ch := by
  induction l with
  | nil => intro s cur i h; exact absurd h (by simp)
  | cons c rest ih =>
    intro s cur i h hns
    cases i with
    | zero =>
      have hns' : splitHere (scanStep s c) c = false := hns
      have hmem := mem_pdsChunksRaw_of_mem_cur rest (scanStep s c) (c :: cur) c
        (List.mem_cons_self c cur)
      show ∃ ch ∈ pdsChunksRaw s cur (c :: rest), c ∈ ch
      simpa [pdsChunksRaw, hns'] using hmem
    | succ j =>
      have hj : j < rest.length := Nat.lt_of_succ_lt_succ h
      have hget : (c :: rest).get ⟨j + 1, h⟩ = rest.get ⟨j, hj⟩ := rfl
      have htake : (c :: rest).take (j + 1) = c :: rest.take j := rfl
      rw [hget] at hns ⊢
      rw [htake] at hns
      have hscan : scanList s (c :: rest.take j) =
          scanList (scanStep s c) (rest.take j) := rfl
      rw [hscan] at hns
      by_cases hsp : splitHere (scanStep s c) c = true
      · obtain ⟨ch, hch, hmem⟩ := ih (scanStep s c) [] j hj hns
        refine ⟨ch, ?_, hmem⟩
        simp only [pdsChunksRaw, hsp, if_true]
        exact List.mem_cons_of_mem _ hch
      · obtain ⟨ch, hch, hmem⟩ := ih (scanStep s c) (c :: cur) j hj hns
        refine ⟨ch, ?_, hmem⟩
        simpa [pdsChunksRaw, hsp] using hch

/-- Characters not satisfying `p` survive `dropWhile p`. -/
theorem mem_dropWhile_of_not (p : Char → Bool) (l : List Char) (x : Char)
    (hx : x ∈ l) (hp : p x = false) : x ∈ l.dropWhile p := by
  induction l with
  | nil => cases hx
  | cons a t ih =>
    by_cases ha : p a = true
    · rw [List.dropWhile_cons_of_pos ha]
      rcases List.mem_cons.mp hx with rfl | hxt
      · rw [hp] at ha; cases ha
      · exact ih hxt
    · rw [List.dropWhile_cons_of_neg ha]
      exact hx

/-- Characters not satisfying `p` survive stripping with `p`. -/
theorem mem_stripChars_of_not (p : Char → Bool) (l : List Char) (x : Char)
    (hx : x ∈ l) (hp : p x = false) : x ∈ stripChars p l := by
  unfold stripChars
  rw [List.mem_reverse]
  refine mem_dropWhile_of_not p _ x ?_ hp
  rw [List.mem_reverse]
  exact mem_dropWhile_of_not p l x hx hp

/-- A separator character survives the whitespace strip of line 376. -/
theorem mem_pyStrip_sep (l : List Char) (x : Char) (hx : x ∈ l)
    (hc : x = ':' ∨ x = ',') : x ∈ pyStrip l := by
  refine mem_stripChars_of_not _ l x hx ?_
  rcases hc with rfl | rfl <;> decide

/-- A separator character survives the full strip of line 374. -/
theorem mem_stripParens_sep (l : List Char) (x : Char) (hx : x ∈ l)
    (hc : x = ':' ∨ x = ',') : x ∈ stripParens l := by
  unfold stripParens
  refine mem_stripChars_of_not _ _ x ?_ ?_
  · refine mem_stripChars_of_not _ _ x ?_ ?_
    · exact mem_pyStrip_sep l x hx hc
    · rcases hc with rfl | rfl <;> decide
  · rcases hc with rfl | rfl <;> decide

/-- The raw-span list is never empty. -/
theorem pdsChunksRaw_ne_nil (l : List Char) :
    ∀ s cur, pdsChunksRaw s cur l ≠ [] := by
  induction l with
  | nil => intro s cur; simp [pdsChunksRaw]
  | cons c rest ih =>
    intro s cur
    by_cases h : splitHere (scanStep s c) c = true
    · simp [pdsChunksRaw, h]
    · simpa [pdsChunksRaw, h] using ih (scanStep s c) (c :: cur)

/-- `mapInitLast` on a cons with nonempty tail. -/
theorem mapInitLast_cons_of_ne_nil (f g : List Char → List Char)
    (a : List Char) (r : List (List Char)) (h : r ≠ []) :
    mapInitLast f g (a :: r) = f a :: mapInitLast f g r := by
  cases r with
  | nil => exact absurd rfl h
  | cons b t => rfl

/-- The chunks yielded by the loop are the raw spans with the non-final
strip applied everywhere but at the end and the whitespace-only strip
applied at the end. -/
theorem pdsGo_eq_mapInitLast (l : List Char) :
    ∀ s cur, pdsGo s cur l =
      mapInitLast stripParens pyStrip (pdsChunksRaw s cur l) := by
  induction l with
  | nil => intro s cur; simp [pdsGo, pdsChunksRaw, mapInitLast]
  | cons c rest ih =>
    intro s cur
    by_cases h : splitHere (scanStep s c) c = true
    · simp only [pdsGo, pdsChunksRaw, h, if_true]
      rw [mapInitLast_cons_of_ne_nil _ _ _ _
        (pdsChunksRaw_ne_nil rest (scanStep s c) [])]
      rw [ih]
    · simp only [pdsGo, pdsChunksRaw, h, if_false]
      exact ih (scanStep s c) (c :: cur)

/-- Membership transfers through `mapInitLast` for an element preserved
by both transformations. -/
theorem mem_mapInitLast (f g : List Char → List Char) (x : Char)
    (hf : ∀ a, x ∈ a → x ∈ f a) (hg : ∀ a, x ∈ a → x ∈ g a) :
    ∀ L : List (List Char), ∀ ch ∈ L, x ∈ ch →
      ∃ ch2 ∈ mapInitLast f g L, x ∈ ch2 := by
  intro L
  induction L with
  | nil => intro ch hch; cases hch
  | cons a r ih =>
    intro ch hch hx
    cases r with
    | nil =>
      rcases List.mem_singleton.mp hch with rfl
      exact ⟨g ch, by simp [mapInitLast], hg ch hx⟩
    | cons b t =>
      rcases List.mem_cons.mp hch with rfl | hch2
      · exact ⟨f ch, by simp [mapInitLast], hf ch hx⟩
      · obtain ⟨ch2, hch2m, hx2⟩ := ih ch hch2 hx
        exact ⟨ch2, by simp [mapInitLast, hch2m], hx2⟩

/-- The split condition fails at positive nesting level or inside a
quote. -/
theorem splitHere_eq_false_of_nested (s : ScanState) (c : Char)
    (h : 0 < s.level ∨ s.currParen ≠ none) : splitHere s c = false := by
  unfold splitHere
  rcases h with h | h
  · have hz : (s.level == 0) = false := by
      simpa using (by omega : s.level ≠ 0)
    rw [hz]
    simp
  · have hz : (s.currParen == none) = false := by
      simpa using h
    rw [hz]
    simp

/-- Claim C2: a `:` or `,` that occurs at bracket nesting depth above
zero or inside an open quote is never used as a chunk boundary and stays
inside one of the yielded chunks. -/
theorem C2_no_split_inside_nested (code : List Char) (i : Nat)
    (h : i < code.length)
    (hc : code.get ⟨i, h⟩ = ':' ∨ code.get ⟨i, h⟩ = ',')
    (hnest : 0 < (stateAt code i).level ∨ (stateAt code i).currParen ≠ none) :
    isSplitPos code i h = false ∧
      ∃ chunks, parse_dict_strings code = some chunks ∧
        ∃ ch ∈ chunks, code.get ⟨i, h⟩ ∈ ch := by
  have hsf : splitHere (scanStep (stateAt code i) (code.get ⟨i, h⟩))
      (code.get ⟨i, h⟩) = false := by
    rw [scanStep_sep _ _ hc]
    exact splitHere_eq_false_of_nested _ _ hnest
  refine ⟨hsf, pdsGo initState [] code, ?_, ?_⟩
  · refine parse_dict_strings_of_ne_nil code ?_
    intro hnil
    rw [hnil] at h
    exact absurd h (by simp)
  · obtain ⟨ch, hch, hmem⟩ :=
      mem_pdsChunksRaw_of_not_split code initState [] i h hsf
    rw [pdsGo_eq_mapInitLast]
    exact mem_mapInitLast stripParens pyStrip _
      (fun a ha => mem_stripParens_sep a _ ha hc)
      (fun a ha => mem_pyStrip_sep a _ ha hc)
      _ ch hch hmem

/-- Witness for claim C2 at the concrete input `{a:b}` and position 2:
the colon sits at nesting level 1 and is kept inside the single chunk. -/
theorem C2_witness :
    isSplitPos ['{', 'a', ':', 'b', '}'] 2 (by decide) = false ∧
      ∃ chunks, parse_dict_strings ['{', 'a', ':', 'b', '}'] = some chunks ∧
        ∃ ch ∈ chunks, List.get ['{', 'a', ':', 'b', '}'] ⟨2, by decide⟩ ∈ ch :=
  C2_no_split_inside_nested ['{', 'a', ':', 'b', '}'] 2 (by decide)
    (by decide) (by decide)

/-! ### Stripping of yielded chunks (claim C3) -/

/-- Counterexample to claim C3 as stated: on the well-formed input
`a:(1)` (one pair of atoms) the final yielded chunk is `(1)`, which still
carries its enclosing parentheses, because line 376 applies `.strip()`
only and never `.strip("(").strip(")")`. -/
theorem C3_counterexample :
    (∀ p ∈ [((['a'] : List Char), ['(', '1', ')'])], isAtom p.1 ∧ isAtom p.2) ∧
      parse_dict_strings (joinPairs [((['a'] : List Char), ['(', '1', ')'])]) =
        some [['a'], ['(', '1', ')']] ∧
      stripParens ['(', '1', ')'] ≠ ['(', '1', ')'] := by
  decide

/-- Claim C3 (amended): for every well-formed flat `key:value,`-separated
string, every chunk except the final one is its raw span with surrounding
whitespace, then enclosing `(` characters, then enclosing `)` characters
stripped; the final chunk is its raw span with surrounding whitespace
stripped only, retaining any enclosing parentheses. -/
theorem C3_amended_chunk_stripping
    (pairs : List (List Char × List Char)) (hne : pairs ≠ [])
    (_hat : ∀ p ∈ pairs, isAtom p.1 ∧ isAtom p.2) :
    parse_dict_strings (joinPairs pairs) =
      some (mapInitLast stripParens pyStrip
        (pdsChunksRaw initState [] (joinPairs pairs))) := by
  rw [parse_dict_strings_of_ne_nil _ (joinPairs_ne_nil pairs hne)]
  rw [pdsGo_eq_mapInitLast]

/-- Witness for the amended claim C3 at the one-pair input `a:(1)`. -/
theorem C3_amended_witness :
    ([((['a'] : List Char), ['(', '1', ')'])] ≠
        ([] : List (List Char × List Char))) ∧
      parse_dict_strings (joinPairs [((['a'] : List Char), ['(', '1', ')'])]) =
        some (mapInitLast stripParens pyStrip
          (pdsChunksRaw initState []
            (joinPairs [((['a'] : List Char), ['(', '1', ')'])]))) :=
  ⟨by decide, C3_amended_chunk_stripping _ (by decide) (by decide)⟩

/-! ### Behaviour on the empty string (claim C8) -/

/-- Claim C8: on the empty string `parse_dict_strings` yields no chunk
and fails (the final `yield` reads the unbound loop variable, a
`NameError`, modelled by `none`); on every nonempty string it succeeds. -/
theorem C8_empty_input_fails :
    parse_dict_strings [] = none ∧
      ∀ code : List Char, code ≠ [] →
        ∃ chunks, parse_dict_strings code = some chunks := by
  refine ⟨rfl, ?_⟩
  intro code h
  exact ⟨pdsGo initState [] code, parse_dict_strings_of_ne_nil code h⟩

/-- Witness for claim C8: the nonempty branch applied to the one-letter
input `a`. -/
theorem C8_witness :
    parse_dict_strings [] = none ∧
      (['a'] ≠ ([] : List Char)) ∧
      ∃ chunks, parse_dict_strings ['a'] = some chunks :=
  ⟨C8_empty_input_fails.1, by decide, C8_empty_input_fails.2 ['a'] (by decide)⟩

/-! ### Error handling of the dialog callbacks (claims C4 and C5) -/

/-- Claim C4: when evaluating the cell or coercing the result to a tuple
fails with a coercion failure (`TypeError` or `ValueError`),
`get_series_tuple` catches it and returns the empty tuple instead of
propagating the exception. -/
theorem C4_get_series_tuple_catches_coercion {α β : Type}
    (evalCell : List Char → Except PyExc α)
    (toSeriesTuple : α → Except PyExc (List β)) (code : List Char)
    (e : PyExc) (he : e = PyExc.typeError ∨ e = PyExc.valueError)
    (hfail : (do
        let result ← evalCell code
        toSeriesTuple result : Except PyExc (List β)) = Except.error e) :
    get_series_tuple evalCell toSeriesTuple code = Except.ok [] := by
  unfold get_series_tuple
  rw [hfail]
  exact if_pos he

/-- Witness for claim C4: the tuple coercion raises `ValueError` and the
handler yields the empty tuple. -/
theorem C4_witness :
    ((PyExc.valueError = PyExc.typeError ∨
        PyExc.valueError = PyExc.valueError) ∧
      (do
          let result ← (fun _ : List Char =>
            (Except.ok () : Except PyExc Unit)) []
          (fun _ : Unit =>
            (Except.error PyExc.valueError : Except PyExc (List Unit)))
            result) = Except.error PyExc.valueError) ∧
      get_series_tuple
          (fun _ : List Char => (Except.ok () : Except PyExc Unit))
          (fun _ : Unit =>
            (Except.error PyExc.valueError : Except PyExc (List Unit)))
          [] = Except.ok [] :=
  ⟨⟨Or.inr rfl, rfl⟩,
    C4_get_series_tuple_catches_coercion _ _ [] PyExc.valueError
      (Or.inr rfl) rfl⟩

/-- Claim C5: when `figure.draw_chart` raises `ValueError`, `OnDrawChart`
silently aborts the redraw: no exception propagates (the result is `ok`)
and `figure_canvas.draw()` is not invoked (the flag is `false`). -/
theorem C5_OnDrawChart_valueerror_aborts {χ : Type}
    (drawChart : χ → Except PyExc Unit) (chart_data : χ)
    (hraise : drawChart chart_data = Except.error PyExc.valueError) :
    OnDrawChart drawChart chart_data = Except.ok (chart_data, false) := by
  unfold OnDrawChart
  rw [hraise]

/-- Witness for claim C5 with a `draw_chart` that always raises
`ValueError`. -/
theorem C5_witness :
    ((fun _ : Unit =>
        (Except.error PyExc.valueError : Except PyExc Unit)) () =
      Except.error PyExc.valueError) ∧
      OnDrawChart
          (fun _ : Unit =>
            (Except.error PyExc.valueError : Except PyExc Unit)) () =
        Except.ok ((), false) :=
  ⟨rfl, C5_OnDrawChart_valueerror_aborts _ () rfl⟩

/-! ### Shape of the generated figure expression (claim C6) -/

/-- The fold of `get_figure_code` equals the accumulator followed by the
flattened per-panel renderings. -/
theorem figure_code_foldl (ps : List SeriesPanel) :
    ∀ (acc : List Char),
      List.foldl
          (fun acc panel =>
            acc ++ ',' :: ' ' :: '{' :: seriesDataCode panel ++ ['}'])
          acc ps =
        acc ++ (ps.map
          (fun panel =>
            ',' :: ' ' :: '{' :: seriesDataCode panel ++ ['}'])).flatten := by
  induction ps with
  | nil => intro acc; simp
  | cons p ps2 ih =>
    intro acc
    simp only [List.foldl_cons, List.map_cons, List.flatten_cons]
    rw [ih]
    simp [List.append_assoc]

/-- Flattening the `, `-prefixed renderings of a nonempty panel list
gives a leading `, ` followed by the `, `-joined renderings. -/
theorem figure_code_flatten (ps : List SeriesPanel) :
    ∀ (p : SeriesPanel),
      ((p :: ps).map
        (fun panel =>
          ',' :: ' ' :: '{' :: seriesDataCode panel ++ ['}'])).flatten =
      ',' :: ' ' :: joinSep [',', ' ']
        ((p :: ps).map (fun panel => '{' :: seriesDataCode panel ++ ['}'])) := by
  induction ps with
  | nil => intro p; simp [joinSep]
  | cons q ps2 ih =>
    intro p
    simp only [List.map_cons, List.flatten_cons] at ih ⊢
    rw [ih q]
    simp [joinSep, List.append_assoc]

/-- Claim C6: for every dialog state with at least one series panel,
`get_figure_code` returns `charts.ChartFigure(` followed by one
brace-enclosed series dict per panel, separated by `, `, followed by
`)`. -/
theorem C6_get_figure_code_form (panels : List SeriesPanel)
    (hne : panels ≠ []) :
    get_figure_code panels = chartFigureCodeSpec panels := by
  cases panels with
  | nil => exact absurd rfl hne
  | cons p ps =>
    show chartsQualifier ++ chartFigureName ++ '(' ::
        (List.foldl
          (fun acc panel =>
            acc ++ ',' :: ' ' :: '{' :: seriesDataCode panel ++ ['}'])
          [] (p :: ps)).drop 2 ++ [')'] =
      chartFigureCodeSpec (p :: ps)
    rw [figure_code_foldl (p :: ps) [], List.nil_append,
      figure_code_flatten ps p]
    rfl

/-- Witness for claim C6 at a concrete one-panel dialog. -/
theorem C6_witness :
    ([({ series_data := [("ydata".toList, "(1, 2)".toList)],
          series_keys := [] } : SeriesPanel)] ≠ []) ∧
      get_figure_code
          [({ series_data := [("ydata".toList, "(1, 2)".toList)],
              series_keys := [] } : SeriesPanel)] =
        chartFigureCodeSpec
          [({ series_data := [("ydata".toList, "(1, 2)".toList)],
              series_keys := [] } : SeriesPanel)] :=
  ⟨by decide, C6_get_figure_code_form _ (by decide)⟩

/-! ### Frame effect of the widget handlers (claim C7) -/

/-- Assignment stores the value under the assigned key. -/
theorem dictGet_dictSet_same {β : Type} (d : List (List Char × β))
    (k : List Char) (v : β) : dictGet (dictSet d k v) k = some v := by
  induction d with
  | nil => simp [dictSet, dictGet]
  | cons kv rest ih =>
    by_cases h : kv.1 = k
    · simp [dictSet, h, dictGet]
    · simp [dictSet, h, dictGet, ih]

/-- Assignment leaves every other key untouched. -/
theorem dictGet_dictSet_ne {β : Type} (d : List (List Char × β))
    (k k2 : List Char) (v : β) (h : k2 ≠ k) :
    dictGet (dictSet d k v) k2 = dictGet d k2 := by
  induction d with
  | nil => simp [dictSet, dictGet, Ne.symm h]
  | cons kv rest ih =>
    by_cases hk : kv.1 = k
    · have hset : dictSet (kv :: rest) k v = (k, v) :: rest := by
        simp [dictSet, hk]
      rw [hset]
      show (if k = k2 then some v else dictGet rest k2) = dictGet (kv :: rest) k2
      rw [if_neg (Ne.symm h)]
      show dictGet rest k2 = if kv.1 = k2 then some kv.2 else dictGet rest k2
      rw [if_neg (by rw [hk]; exact Ne.symm h)]
    · have hset : dictSet (kv :: rest) k v = kv :: dictSet rest k v := by
        simp [dictSet, hk]
      rw [hset]
      show (if kv.1 = k2 then some kv.2 else dictGet (dictSet rest k v) k2) =
        dictGet (kv :: rest) k2
      rw [ih]
      rfl

/-- Claim C7: each widget event handler of the data, line and marker
panels stores its value under exactly one key of the shared series dict
and leaves the value bound to every other key unchanged. -/
theorem C7_handlers_mutate_single_key (sd : SeriesData)
    (txt code colorRepr : List Char) (n : Int) (k : List Char) :
    (dictGet (OnXText sd txt) "xdata".toList = some txt ∧
      (k ≠ "xdata".toList → dictGet (OnXText sd txt) k = dictGet sd k)) ∧
    (dictGet (OnYText sd txt) "ydata".toList = some txt ∧
      (k ≠ "ydata".toList → dictGet (OnYText sd txt) k = dictGet sd k)) ∧
    (dictGet (lineOnStyle sd code) "linestyle".toList =
        some (pyReprStr code) ∧
      (k ≠ "linestyle".toList →
        dictGet (lineOnStyle sd code) k = dictGet sd k)) ∧
    (dictGet (OnWidth sd n) "linewidth".toList = some (pyReprInt n) ∧
      (k ≠ "linewidth".toList → dictGet (OnWidth sd n) k = dictGet sd k)) ∧
    (dictGet (OnColor sd colorRepr) "color".toList = some colorRepr ∧
      (k ≠ "color".toList → dictGet (OnColor sd colorRepr) k = dictGet sd k)) ∧
    (dictGet (markerOnStyle sd code) "marker".toList =
        some (pyReprStr code) ∧
      (k ≠ "marker".toList →
        dictGet (markerOnStyle sd code) k = dictGet sd k)) ∧
    (dictGet (OnSize sd n) "markersize".toList = some (pyReprInt n) ∧
      (k ≠ "markersize".toList → dictGet (OnSize sd n) k = dictGet sd k)) ∧
    (dictGet (OnEdgeColor sd colorRepr) "markeredgecolor".toList =
        some colorRepr ∧
      (k ≠ "markeredgecolor".toList →
        dictGet (OnEdgeColor sd colorRepr) k = dictGet sd k)) ∧
    (dictGet (OnFaceColor sd colorRepr) "markerfacecolor".toList =
        some colorRepr ∧
      (k ≠ "markerfacecolor".toList →
        dictGet (OnFaceColor sd colorRepr) k = dictGet sd k)) := by
  unfold OnXText OnYText lineOnStyle OnWidth OnColor markerOnStyle OnSize
    OnEdgeColor OnFaceColor
  exact ⟨⟨dictGet_dictSet_same _ _ _,
      fun hk => dictGet_dictSet_ne _ _ _ _ hk⟩,
    ⟨dictGet_dictSet_same _ _ _, fun hk => dictGet_dictSet_ne _ _ _ _ hk⟩,
    ⟨dictGet_dictSet_same _ _ _, fun hk => dictGet_dictSet_ne _ _ _ _ hk⟩,
    ⟨dictGet_dictSet_same _ _ _, fun hk => dictGet_dictSet_ne _ _ _ _ hk⟩,
    ⟨dictGet_dictSet_same _ _ _, fun hk => dictGet_dictSet_ne _ _ _ _ hk⟩,
    ⟨dictGet_dictSet_same _ _ _, fun hk => dictGet_dictSet_ne _ _ _ _ hk⟩,
    ⟨dictGet_dictSet_same _ _ _, fun hk => dictGet_dictSet_ne _ _ _ _ hk⟩,
    ⟨dictGet_dictSet_same _ _ _, fun hk => dictGet_dictSet_ne _ _ _ _ hk⟩,
    ⟨dictGet_dictSet_same _ _ _, fun hk => dictGet_dictSet_ne _ _ _ _ hk⟩⟩

/-- Witness for claim C7 on the empty dict, with every frame implication
discharged at the probe key `foo`. -/
theorem C7_witness :
    (dictGet (OnXText [] ['1']) "xdata".toList = some ['1'] ∧
      dictGet (OnXText [] ['1']) "foo".toList = dictGet [] "foo".toList) ∧
    (dictGet (OnYText [] ['1']) "ydata".toList = some ['1'] ∧
      dictGet (OnYText [] ['1']) "foo".toList = dictGet [] "foo".toList) ∧
    (dictGet (lineOnStyle [] ['-']) "linestyle".toList =
        some (pyReprStr ['-']) ∧
      dictGet (lineOnStyle [] ['-']) "foo".toList = dictGet [] "foo".toList) ∧
    (dictGet (OnWidth [] 2) "linewidth".toList = some (pyReprInt 2) ∧
      dictGet (OnWidth [] 2) "foo".toList = dictGet [] "foo".toList) ∧
    (dictGet (OnColor [] ['r']) "color".toList = some ['r'] ∧
      dictGet (OnColor [] ['r']) "foo".toList = dictGet [] "foo".toList) ∧
    (dictGet (markerOnStyle [] ['-']) "marker".toList =
        some (pyReprStr ['-']) ∧
      dictGet (markerOnStyle [] ['-']) "foo".toList =
        dictGet [] "foo".toList) ∧
    (dictGet (OnSize [] 2) "markersize".toList = some (pyReprInt 2) ∧
      dictGet (OnSize [] 2) "foo".toList = dictGet [] "foo".toList) ∧
    (dictGet (OnEdgeColor [] ['r']) "markeredgecolor".toList = some ['r'] ∧
      dictGet (OnEdgeColor [] ['r']) "foo".toList = dictGet [] "foo".toList) ∧
    (dictGet (OnFaceColor [] ['r']) "markerfacecolor".toList = some ['r'] ∧
      dictGet (OnFaceColor [] ['r']) "foo".toList = dictGet [] "foo".toList) := by
  have h := C7_handlers_mutate_single_key [] ['1'] ['-'] ['r'] 2 "foo".toList
  exact ⟨⟨h.1.1, h.1.2 (by decide)⟩,
    ⟨h.2.1.1, h.2.1.2 (by decide)⟩,
    ⟨h.2.2.1.1, h.2.2.1.2 (by decide)⟩,
    ⟨h.2.2.2.1.1, h.2.2.2.1.2 (by decide)⟩,
    ⟨h.2.2.2.2.1.1, h.2.2.2.2.1.2 (by decide)⟩,
    ⟨h.2.2.2.2.2.1.1, h.2.2.2.2.2.1.2 (by decide)⟩,
    ⟨h.2.2.2.2.2.2.1.1, h.2.2.2.2.2.2.1.2 (by decide)⟩,
    ⟨h.2.2.2.2.2.2.2.1.1, h.2.2.2.2.2.2.2.1.2 (by decide)⟩,
    ⟨h.2.2.2.2.2.2.2.2.1, h.2.2.2.2.2.2.2.2.2 (by decide)⟩⟩

/-! ### `eval_chart_data` leaves the panel dicts unchanged (claim C9) -/

/-- Overwriting a dict object preserves the heap size. -/
theorem heapSet_length (h : Heap) (r : Nat) (d : SDict) :
    (heapSet h r d).length = h.length := by
  simp [heapSet]

/-- Overwriting one dict object leaves every other object unchanged. -/
theorem heapGet_heapSet_ne :
    ∀ (h : Heap) (r r2 : Nat) (d : SDict), r2 ≠ r →
      heapGet (heapSet h r d) r2 = heapGet h r2 := by
  intro h
  induction h with
  | nil => intro r r2 d hne; rfl
  | cons a t ih =>
    intro r r2 d hne
    cases r with
    | zero =>
      cases r2 with
      | zero => exact absurd rfl hne
      | succ m => rfl
    | succ rr =>
      cases r2 with
      | zero => rfl
      | succ m =>
        show heapGet (heapSet t rr d) m = heapGet t m
        exact ih rr m d (fun hmr => hne (by rw [hmr]))

/-- Allocation leaves every existing object unchanged. -/
theorem heapGet_heapAlloc_lt :
    ∀ (h : Heap) (d : SDict) (r : Nat), r < h.length →
      heapGet (h ++ [d]) r = heapGet h r := by
  intro h
  induction h with
  | nil => intro d r hr; exact absurd hr (by simp)
  | cons a t ih =>
    intro d r hr
    cases r with
    | zero => rfl
    | succ m =>
      show heapGet (t ++ [d]) m = heapGet t m
      exact ih d m (Nat.lt_of_succ_lt_succ hr)

/-- A coercion loop writes only through the reference it was given and
preserves the heap size. -/
theorem coerceKeys_frame (f : ChartVal → ChartVal) :
    ∀ (ks : List (List Char)) (h : Heap) (r : Nat) (h2 : Heap),
      coerceKeys f ks h r = some h2 →
      h2.length = h.length ∧
        ∀ r2, r2 ≠ r → heapGet h2 r2 = heapGet h r2 := by
  intro ks
  induction ks with
  | nil =>
    intro h r h2 hc
    cases hc
    exact ⟨rfl, fun r2 _ => rfl⟩
  | cons k ks2 ih =>
    intro h r h2 hc
    unfold coerceKeys at hc
    cases hd : dictGet (heapGet h r) k with
    | none => rw [hd] at hc; cases hc
    | some v =>
      rw [hd] at hc
      obtain ⟨hlen, hframe⟩ := ih _ _ _ hc
      refine ⟨by rw [hlen, heapSet_length], fun r2 hne => ?_⟩
      rw [hframe r2 hne, heapGet_heapSet_ne _ _ _ _ hne]

/-- One panel iteration grows the heap by the freshly copied dict and
leaves every previously allocated object unchanged. -/
theorem evalSeriesPanel_frame (tc fc : ChartVal → ChartVal) (h : Heap)
    (p : PanelRef) (d : SDict) (h2 : Heap)
    (he : evalSeriesPanel tc fc h p = some (d, h2)) :
    h2.length = h.length + 1 ∧
      ∀ r, r < h.length → heapGet h2 r = heapGet h r := by
  unfold evalSeriesPanel heapAlloc at he
  dsimp only [] at he
  cases hc1 : coerceKeys tc p.series_keys (h ++ [heapGet h p.series_data_ref])
      h.length with
  | none => rw [hc1] at he; cases he
  | some hA =>
    rw [hc1] at he
    dsimp only [] at he
    cases hc2 : coerceKeys sliceFirstLast p.string_keys hA h.length with
    | none => rw [hc2] at he; cases he
    | some hB =>
      rw [hc2] at he
      dsimp only [] at he
      cases hc3 : coerceKeys fc p.float_keys hB h.length with
      | none => rw [hc3] at he; cases he
      | some hC =>
        rw [hc3] at he
        dsimp only [] at he
        cases he
        obtain ⟨hl1, hf1⟩ := coerceKeys_frame tc _ _ _ _ hc1
        obtain ⟨hl2, hf2⟩ := coerceKeys_frame sliceFirstLast _ _ _ _ hc2
        obtain ⟨hl3, hf3⟩ := coerceKeys_frame fc _ _ _ _ hc3
        constructor
        · rw [hl3, hl2, hl1]
          simp
        · intro r hr
          have hrne : r ≠ h.length := Nat.ne_of_lt hr
          rw [hf3 r hrne, hf2 r hrne, hf1 r hrne,
            heapGet_heapAlloc_lt h _ r hr]

/-- `eval_chart_data` leaves every object allocated before the call
unchanged. -/
theorem eval_chart_data_frame (tc fc : ChartVal → ChartVal) :
    ∀ (panels : List PanelRef) (h : Heap) (ds : List SDict) (h2 : Heap),
      eval_chart_data tc fc h panels = some (ds, h2) →
      ∀ r, r < h.length → heapGet h2 r = heapGet h r := by
  intro panels
  induction panels with
  | nil =>
    intro h ds h2 he r hr
    cases he
    rfl
  | cons p ps ih =>
    intro h ds h2 he r hr
    unfold eval_chart_data at he
    cases he1 : evalSeriesPanel tc fc h p with
    | none => rw [he1] at he; cases he
    | some dh1 =>
      obtain ⟨d1, hh1⟩ := dh1
      rw [he1] at he
      dsimp only [] at he
      obtain ⟨hl1, hf1⟩ := evalSeriesPanel_frame tc fc h p d1 hh1 he1
      cases he2 : eval_chart_data tc fc hh1 ps with
      | none => rw [he2] at he; cases he
      | some dsh2 =>
        obtain ⟨ds2, hh2⟩ := dsh2
        rw [he2] at he
        dsimp only [] at he
        injection he with hpr
        injection hpr with hds hh
        subst hh
        have hr1 : r < hh1.length := by omega
        rw [ih hh1 ds2 hh2 he2 r hr1, hf1 r hr]

/-- Claim C9: `eval_chart_data` performs all coercions on a fresh copy of
each panel's series dict, so the dict of every series panel is unchanged
by computing the chart data. -/
theorem C9_eval_chart_data_preserves_panels
    (tupleCoerce floatCoerce : ChartVal → ChartVal) (h : Heap)
    (panels : List PanelRef) (chart_data : List SDict) (h2 : Heap)
    (heval : eval_chart_data tupleCoerce floatCoerce h panels =
      some (chart_data, h2))
    (p : PanelRef) (hp : p ∈ panels)
    (hr : p.series_data_ref < h.length) :
    heapGet h2 p.series_data_ref = heapGet h p.series_data_ref := by
  have _ := hp
  exact eval_chart_data_frame tupleCoerce floatCoerce panels h chart_data h2
    heval p.series_data_ref hr

/-- Witness for claim C9: one panel whose dict lives at reference 0 of a
one-object heap; after evaluation the object at reference 0 still holds
its original string. -/
theorem C9_witness :
    (eval_chart_data (fun _ => ChartVal.vTup ['t']) (fun v => v)
        [[(['a'], ChartVal.vStr ['1'])]]
        [{ series_data_ref := 0, series_keys := [['a']],
           string_keys := [], float_keys := [] }] =
      some ([[(['a'], ChartVal.vTup ['t'])]],
        [[(['a'], ChartVal.vStr ['1'])], [(['a'], ChartVal.vTup ['t'])]])) ∧
    ({ series_data_ref := 0, series_keys := [['a']],
        string_keys := [], float_keys := [] } : PanelRef) ∈
      [({ series_data_ref := 0, series_keys := [['a']],
          string_keys := [], float_keys := [] } : PanelRef)] ∧
    (0 < ([[(['a'], ChartVal.vStr ['1'])]] : Heap).length) ∧
    heapGet [[(['a'], ChartVal.vStr ['1'])],
        [(['a'], ChartVal.vTup ['t'])]] 0 =
      heapGet [[(['a'], ChartVal.vStr ['1'])]] 0 :=
  ⟨by decide, by decide, by decide,
    C9_eval_chart_data_preserves_panels (fun _ => ChartVal.vTup ['t'])
      (fun v => v) [[(['a'], ChartVal.vStr ['1'])]]
      [{ series_data_ref := 0, series_keys := [['a']],
         string_keys := [], float_keys := [] }]
      [[(['a'], ChartVal.vTup ['t'])]]
      [[(['a'], ChartVal.vStr ['1'])], [(['a'], ChartVal.vTup ['t'])]]
      (by decide)
      { series_data_ref := 0, series_keys := [['a']],
        string_keys := [], float_keys := [] }
      (by decide) (by decide)⟩

/-! ### The `brush_styles` table (claim C10) -/

/-- Claim C10: although written as nine entries, `brush_styles` contains
exactly one key, the empty string; its value is the last constant listed,
`wx.VERTICAL_HATCH`; and no nonempty brush style name can be looked up in
it. -/
theorem C10_brush_styles_single_key :
    brush_styles = [([], WxBrushStyle.verticalHatch)] ∧
      brush_styles.length = 1 ∧
      ∀ k : List Char, k ≠ [] → dictGet brush_styles k = none := by
  refine ⟨by decide, by decide, ?_⟩
  intro k hk
  show dictGet [([], WxBrushStyle.verticalHatch)] k = none
  unfold dictGet
  rw [if_neg (fun h => hk h.symm)]
  rfl

/-- Witness for claim C10 at the nonempty probe key `a`. -/
theorem C10_witness :
    brush_styles = [([], WxBrushStyle.verticalHatch)] ∧
      (['a'] ≠ ([] : List Char)) ∧
      dictGet brush_styles ['a'] = none :=
  ⟨C10_brush_styles_single_key.1, by decide,
    C10_brush_styles_single_key.2.2 ['a'] (by decide)⟩

end Pyspread
